import Mathlib

/-!
Verification of the privy RBAC library: the hierarchical permission
matcher, the path resolver, and the resource/role manager, embedded
shallowly from the Go source.  Go strings are modelled as lists of
characters, Go errors as an explicit error type, fallible operations as
values of type Except, and the storage interface as a record of pure
state-passing functions.
-/

namespace Privy

/-- Go strings are modelled as lists of characters. -/
abbrev Str := List Char

/-- Conversion from Lean string literals, used for concrete test inputs. -/
def str (s : String) : Str := s.toList

/-- The error values of the library: the sentinel errors declared in
manager.go and in the GORM storage backend, plus an `other` family
standing for opaque storage-layer failures. -/
inductive Err where
  | invalidResourcePath
  | resourceExists
  | roleExists
  | resourceNotFound
  | actionNotFound
  | roleNotFound
  | duplicateKey
  | other (n : Nat)
deriving DecidableEq, Repr

/-- Action record (storage.go): id, key, name, description, owning
resource id.  Timestamps are omitted: no function in the source reads
or branches on them. -/
structure Action where
  id : Nat
  key : Str
  name : Str
  description : Str
  resourceID : Nat
deriving DecidableEq, Repr

/-- DefineAction from storage.go: builds an Action value from key, name
and description. -/
def DefineAction (key name description : Str) : Action :=
  { id := 0, key := key, name := name, description := description, resourceID := 0 }

/-- Resource record (storage.go): id, key, name, description, optional
parent id, and the eagerly loaded actions.  The SubResources collection
is represented implicitly by the parentID links of the stored rows; no
function in manager.go or permission.go ever reads the SubResources
field, so it is not carried on the record. -/
structure Resource where
  id : Nat
  key : Str
  name : Str
  description : Str
  parentID : Option Nat
  actions : List Action
deriving DecidableEq, Repr

/-- Role record (storage.go): id, unique key, name, description and the
permission strings. -/
structure Role where
  id : Nat
  key : Str
  name : Str
  description : Str
  permissions : List Str
deriving DecidableEq, Repr

/-- ResourceConfig from storage.go. -/
structure ResourceConfig where
  key : Str
  name : Str
  description : Str
  actions : List Action
  subResources : List Resource
deriving DecidableEq, Repr

/-- RoleConfig from storage.go. -/
structure RoleConfig where
  name : Str
  description : Str
  permissions : List Str
deriving DecidableEq, Repr

/-- CheckPermission from permission.go: exact match, or the given
permission is a dot-separated ancestor of the required one, or the
required permission is a dot-separated ancestor of the given one.
Go's strings.HasPrefix(s, p) is List.isPrefixOf p s on the character
lists. -/
def CheckPermission (requiredPermission givenPermission : Str) : Bool :=
  if requiredPermission = givenPermission then
    true
  else if (givenPermission ++ ['.']).isPrefixOf requiredPermission then
    true
  else if (requiredPermission ++ ['.']).isPrefixOf givenPermission then
    true
  else
    false

/-- CheckPermissions from permission.go: some given permission
satisfies the required one. -/
def CheckPermissions (requiredPermission : Str) (givenPermissions : List Str) : Bool :=
  match givenPermissions with
  | [] => false
  | given :: rest =>
    if CheckPermission requiredPermission given then true
    else CheckPermissions requiredPermission rest

/-- Characterisation of Go's strings.HasPrefix on the list model: p is a
prefix of s exactly when s is p followed by some suffix. -/
theorem isPrefixOf_iff_exists_append (p s : Str) :
    p.isPrefixOf s = true ↔ ∃ t, s = p ++ t := by
  rw [ List.isPrefixOf_iff_prefix]
  constructor
  · rintro ⟨t, ht⟩
    exact ⟨t, ht.symm⟩
  · rintro ⟨t, ht⟩
    exact ⟨t, ht.symm⟩

/-- C1: CheckPermission holds exactly when the two strings are equal, or
required extends given by a dot and a suffix, or given extends required
by a dot and a suffix; and it is not a bare prefix test: the
user/username pairs are rejected while an arbitrary-depth ancestor
matches. -/
theorem checkPermission_characterisation :
    (∀ required given : Str,
      CheckPermission required given = true ↔
        (required = given ∨
          (∃ rest, required = given ++ '.' :: rest) ∨
          (∃ rest, given = required ++ '.' :: rest))) ∧
    CheckPermission (str "user") (str "username") = false ∧
    CheckPermission (str "username") (str "user") = false ∧
    CheckPermission (str "infrastructure.vm.compute.start") (str "infrastructure") = true := by
  refine ⟨?_, by decide, by decide, by decide⟩
  intro required given
  have base : CheckPermission required given = true ↔
      (required = given ∨
        (given ++ ['.']).isPrefixOf required = true ∨
        (required ++ ['.']).isPrefixOf given = true) := by
    unfold CheckPermission
    split_ifs <;> simp_all
  rw [base, isPrefixOf_iff_exists_append, isPrefixOf_iff_exists_append]
  simp [List.append_assoc]

/-- C6: CheckPermission is symmetric in its two arguments. -/
theorem checkPermission_symm (a b : Str) :
    CheckPermission a b = CheckPermission b a := by
  unfold CheckPermission
  by_cases h : a = b
  · simp [h]
  · have h' : ¬ b = a := fun hba => h hba.symm
    by_cases h1 : (b ++ ['.']).isPrefixOf a = true <;>
      by_cases h2 : (a ++ ['.']).isPrefixOf b = true <;>
        simp [h, h', h1, h2]

/-- The Storage interface from storage.go, as a record of pure
state-passing functions over an abstract state type.  Go's mutation of
the argument pointer (CreateResource and CreateRole set the record's ID)
is modelled by returning the stored record alongside the new state. -/
structure StorageOps (σ : Type) where
  createResource : σ → Resource → Except Err (σ × Resource)
  getResource : σ → Str → Option Nat → Except Err Resource
  getResourceByID : σ → Nat → Except Err Resource
  listResources : σ → Option Nat → Except Err (List Resource)
  updateResource : σ → Resource → Except Err σ
  deleteResource : σ → Nat → Except Err σ
  createActions : σ → Nat → List Action → Except Err σ
  getAction : σ → Nat → Str → Except Err Action
  listActions : σ → Nat → Except Err (List Action)
  deleteAction : σ → Nat → Except Err σ
  createRole : σ → Role → Except Err (σ × Role)
  getRole : σ → Str → Except Err Role
  getRoleByID : σ → Nat → Except Err Role
  listRoles : σ → Except Err (List Role)
  updateRole : σ → Role → Except Err σ
  deleteRole : σ → Nat → Except Err σ

namespace Manager

variable {σ : Type}

/-- parseResourcePath from manager.go: strings.Split(path, "."). -/
def parseResourcePath (path : Str) : List Str :=
  path.splitOn '.'

/-- The resolution loop of getResourceByPath: looks up the current key
scoped by the parent id accumulated so far, and walks the remaining
keys. -/
def walkPath (S : StorageOps σ) (st : σ) (parentID : Option Nat) (key : Str) :
    List Str → Except Err Resource
  | [] => S.getResource st key parentID
  | key2 :: rest =>
    match S.getResource st key parentID with
    | .error e => .error e
    | .ok r => walkPath S st (some r.id) key2 rest

/-- getResourceByPath from manager.go: split the path, fail with
ErrInvalidResourcePath when the key sequence is empty, otherwise walk
the keys left to right starting from the root scope. -/
def getResourceByPath (S : StorageOps σ) (st : σ) (path : Str) : Except Err Resource :=
  match parseResourcePath path with
  | [] => .error .invalidResourcePath
  | key :: rest => walkPath S st none key rest

/-- The resource row built by CreateResource from its config, before the
storage assigns an id. -/
def resourceOfConfig (config : ResourceConfig) : Resource :=
  { id := 0, key := config.key, name := config.name,
    description := config.description, parentID := none, actions := [] }

/-- The sub-resource row built from a candidate sub-resource and its
parent id. -/
def subResourceOf (parentID : Nat) (sub : Resource) : Resource :=
  { id := 0, key := sub.key, name := sub.name,
    description := sub.description, parentID := some parentID, actions := [] }

/-- The sub-resource creation loop at the end of CreateResource: each
configured sub-resource is created unconditionally under the new parent,
then its actions. -/
def createSubsLoop (S : StorageOps σ) (st : σ) (parentID : Nat) :
    List Resource → Except Err σ
  | [] => .ok st
  | sub :: rest =>
    match S.createResource st (subResourceOf parentID sub) with
    | .error e => .error e
    | .ok (st1, subResource) =>
      match (if 0 < sub.actions.length then
               S.createActions st1 subResource.id sub.actions
             else .ok st1) with
      | .error e => .error e
      | .ok st2 => createSubsLoop S st2 parentID rest

/-- The body of CreateResource after the existence pre-check: create the
row, its actions when non-empty, the configured sub-resources, and
reload the resource by id. -/
def createResourceCore (S : StorageOps σ) (st : σ) (config : ResourceConfig) :
    Except Err (σ × Resource) :=
  match S.createResource st (resourceOfConfig config) with
  | .error e => .error e
  | .ok (st1, resource) =>
    match (if 0 < config.actions.length then
             S.createActions st1 resource.id config.actions
           else .ok st1) with
    | .error e => .error e
    | .ok st2 =>
      match createSubsLoop S st2 resource.id config.subResources with
      | .error e => .error e
      | .ok st3 =>
        match S.getResourceByID st3 resource.id with
        | .error e => .error e
        | .ok r => .ok (st3, r)

/-- CreateResource from manager.go: the pre-check looks the key up at
root scope; a successful lookup aborts with ErrResourceExists, and any
lookup failure falls through to the creation sequence. -/
def CreateResource (S : StorageOps σ) (st : σ) (config : ResourceConfig) :
    Except Err (σ × Resource) :=
  match S.getResource st config.key none with
  | .ok _ => .error .resourceExists
  | .error _ => createResourceCore S st config

/-- AddActions from manager.go: resolve the path, then batch-create the
actions on the resolved resource. -/
def AddActions (S : StorageOps σ) (st : σ) (resourcePath : Str) (actions : List Action) :
    Except Err σ :=
  match getResourceByPath S st resourcePath with
  | .error e => .error e
  | .ok resource => S.createActions st resource.id actions

/-- The per-candidate loop of CreateResources: a candidate whose key
resolves under the parent has its actions appended to the existing row
and the loop continues; a candidate whose lookup fails is created fresh
with its actions. -/
def createResourcesLoop (S : StorageOps σ) (st : σ) (parentID : Nat) :
    List Resource → Except Err σ
  | [] => .ok st
  | sub :: rest =>
    match S.getResource st sub.key (some parentID) with
    | .ok existing =>
      match (if 0 < sub.actions.length then
               S.createActions st existing.id sub.actions
             else .ok st) with
      | .error e => .error e
      | .ok st1 => createResourcesLoop S st1 parentID rest
    | .error _ =>
      match S.createResource st (subResourceOf parentID sub) with
      | .error e => .error e
      | .ok (st1, subResource) =>
        match (if 0 < sub.actions.length then
                 S.createActions st1 subResource.id sub.actions
               else .ok st1) with
        | .error e => .error e
        | .ok st2 => createResourcesLoop S st2 parentID rest

/-- CreateResources from manager.go: resolve the parent path, then run
the upsert loop over the candidate sub-resources. -/
def CreateResources (S : StorageOps σ) (st : σ) (parentPath : Str)
    (subResources : List Resource) : Except Err σ :=
  match getResourceByPath S st parentPath with
  | .error e => .error e
  | .ok parent => createResourcesLoop S st parent.id subResources

/-- GetResource from manager.go. -/
def GetResource (S : StorageOps σ) (st : σ) (path : Str) : Except Err Resource :=
  getResourceByPath S st path

/-- ListResources from manager.go: top-level resources only. -/
def ListResources (S : StorageOps σ) (st : σ) : Except Err (List Resource) :=
  S.listResources st none

/-- The role record built by CreateRole from its key and config. -/
def roleOfConfig (key : Str) (config : RoleConfig) : Role :=
  { id := 0, key := key, name := config.name,
    description := config.description, permissions := config.permissions }

/-- CreateRole from manager.go: a successful key lookup aborts with
ErrRoleExists; any lookup failure falls through to creation, whose
outcome is returned verbatim. -/
def CreateRole (S : StorageOps σ) (st : σ) (key : Str) (config : RoleConfig) :
    Except Err (σ × Role) :=
  match S.getRole st key with
  | .ok _ => .error .roleExists
  | .error _ => S.createRole st (roleOfConfig key config)

/-- The permission-appending loop of AssignPermissions: `seen` plays the
role of the Go membership map (seeded with the role's current
permissions), `perms` accumulates the role's permission list. -/
def assignPermsLoop (seen perms : List Str) : List Str → List Str
  | [] => perms
  | p :: rest =>
    if p ∈ seen then assignPermsLoop seen perms rest
    else assignPermsLoop (p :: seen) (perms ++ [p]) rest

/-- The pure permission update of AssignPermissions: append the incoming
permissions not already present, in input order, each at most once. -/
def addPermissions (current incoming : List Str) : List Str :=
  assignPermsLoop current current incoming

/-- AssignPermissions from manager.go: load the role, append the
missing incoming permissions, persist the updated role. -/
def AssignPermissions (S : StorageOps σ) (st : σ) (roleKey : Str)
    (permissions : List Str) : Except Err σ :=
  match S.getRole st roleKey with
  | .error e => .error e
  | .ok role =>
    S.updateRole st { role with permissions := addPermissions role.permissions permissions }

/-- RemovePermissions from manager.go: load the role, keep exactly the
stored permissions not present in the input set, persist. -/
def RemovePermissions (S : StorageOps σ) (st : σ) (roleKey : Str)
    (permissions : List Str) : Except Err σ :=
  match S.getRole st roleKey with
  | .error e => .error e
  | .ok role =>
    S.updateRole st
      { role with permissions := role.permissions.filter (fun p => decide (p ∉ permissions)) }

/-- GetRole from manager.go. -/
def GetRole (S : StorageOps σ) (st : σ) (key : Str) : Except Err Role :=
  S.getRole st key

/-- ListRoles from manager.go. -/
def ListRoles (S : StorageOps σ) (st : σ) : Except Err (List Role) :=
  S.listRoles st

/-- DeleteRole from manager.go: resolve the role by key, then delete by
id. -/
def DeleteRole (S : StorageOps σ) (st : σ) (key : Str) : Except Err σ :=
  match S.getRole st key with
  | .error e => .error e
  | .ok role => S.deleteRole st role.id

/-- DeleteResource from manager.go: resolve the path, then delete by
id. -/
def DeleteResource (S : StorageOps σ) (st : σ) (path : Str) : Except Err σ :=
  match getResourceByPath S st path with
  | .error e => .error e
  | .ok resource => S.deleteResource st resource.id

/-- CheckRolePermission from permission.go: load the role by key and
check its permission list. -/
def CheckRolePermission (S : StorageOps σ) (st : σ) (roleKey requiredPermission : Str) :
    Except Err Bool :=
  match S.getRole st roleKey with
  | .error e => .error e
  | .ok role => .ok (CheckPermissions requiredPermission role.permissions)

/-- CheckRolesPermission from permission.go: walk the role keys in
order; a role lookup failing with ErrRoleNotFound is skipped, any other
error aborts, the first satisfied role returns true, exhaustion returns
false. -/
def CheckRolesPermission (S : StorageOps σ) (st : σ) :
    List Str → Str → Except Err Bool
  | [], _ => .ok false
  | roleKey :: rest, requiredPermission =>
    match CheckRolePermission S st roleKey requiredPermission with
    | .error e =>
      if e = .roleNotFound then CheckRolesPermission S st rest requiredPermission
      else .error e
    | .ok true => .ok true
    | .ok false => CheckRolesPermission S st rest requiredPermission

end Manager

/-- C2: CheckRolesPermission returns false on the empty key list, skips
a key whose lookup fails with RoleNotFound and continues with the rest,
aborts with any other lookup error, returns true at the first role whose
permission list satisfies the requirement, and otherwise continues with
the remaining keys. -/
theorem checkRolesPermission_spec {σ : Type} (S : StorageOps σ) (st : σ)
    (k : Str) (rest : List Str) (req : Str) :
    (Manager.CheckRolesPermission S st [] req = .ok false) ∧
    (S.getRole st k = .error .roleNotFound →
      Manager.CheckRolesPermission S st (k :: rest) req =
        Manager.CheckRolesPermission S st rest req) ∧
    (∀ e, S.getRole st k = .error e → e ≠ .roleNotFound →
      Manager.CheckRolesPermission S st (k :: rest) req = .error e) ∧
    (∀ role, S.getRole st k = .ok role →
      CheckPermissions req role.permissions = true →
      Manager.CheckRolesPermission S st (k :: rest) req = .ok true) ∧
    (∀ role, S.getRole st k = .ok role →
      CheckPermissions req role.permissions = false →
      Manager.CheckRolesPermission S st (k :: rest) req =
        Manager.CheckRolesPermission S st rest req) := by
  refine ⟨rfl, ?_, ?_, ?_, ?_⟩
  · intro h
    simp [Manager.CheckRolesPermission, Manager.CheckRolePermission, h]
  · intro e h hne
    simp [Manager.CheckRolesPermission, Manager.CheckRolePermission, h, hne]
  · intro role h hsat
    simp [Manager.CheckRolesPermission, Manager.CheckRolePermission, h, hsat]
  · intro role h hsat
    simp [Manager.CheckRolesPermission, Manager.CheckRolePermission, h, hsat]

/-- A role used by the concrete check scenarios: the viewer role holding
the article.read permission. -/
def viewerRole : Role :=
  { id := 1, key := str "viewer", name := str "Viewer", description := [],
    permissions := [str "article.read"] }

/-- A baseline stateless storage over the unit state, used to build the
concrete scenarios below. -/
def unitStorage : StorageOps Unit where
  createResource := fun s r => .ok (s, r)
  getResource := fun _ _ _ => .error .resourceNotFound
  getResourceByID := fun _ _ => .error .resourceNotFound
  listResources := fun _ _ => .ok []
  updateResource := fun s _ => .ok s
  deleteResource := fun s _ => .ok s
  createActions := fun s _ _ => .ok s
  getAction := fun _ _ _ => .error .actionNotFound
  listActions := fun _ _ => .ok []
  deleteAction := fun s _ => .ok s
  createRole := fun s r => .ok (s, r)
  getRole := fun _ _ => .error .roleNotFound
  getRoleByID := fun _ _ => .error .roleNotFound
  listRoles := fun _ => .ok []
  updateRole := fun s _ => .ok s
  deleteRole := fun s _ => .ok s

/-- Storage where only the viewer role exists: the ghost key resolves to
RoleNotFound. -/
def ghostViewerStorage : StorageOps Unit :=
  { unitStorage with
    getRole := fun _ k => if k = str "viewer" then .ok viewerRole else .error .roleNotFound }

/-- Witness for the CheckRolesPermission theorem: the ghost role is
missing, the viewer role carries article.read, and the check over
[ghost, viewer] returns true with no error. -/
theorem checkRolesPermission_spec_witness :
    Manager.CheckRolesPermission ghostViewerStorage () [str "ghost", str "viewer"]
      (str "article.read") = .ok true := by
  have hskip :=
    (checkRolesPermission_spec ghostViewerStorage () (str "ghost") [str "viewer"]
      (str "article.read")).2.1 rfl
  rw [hskip]
  exact (checkRolesPermission_spec ghostViewerStorage () (str "viewer") []
    (str "article.read")).2.2.2.1 viewerRole rfl (by decide)

/-- Storage whose resource lookup always fails with a distinctive opaque
error, used to probe whether a lookup is attempted. -/
def probeStorage : StorageOps Unit :=
  { unitStorage with getResource := fun _ _ _ => .error (.other 42) }

/-- C4 counterexample: resolving the empty path does not produce the
InvalidPath error; the root lookup with the empty key is attempted, and
its failure is what comes back. -/
theorem emptyPath_not_invalidPath :
    Manager.getResourceByPath probeStorage () (str "") = .error (.other 42) ∧
    Manager.getResourceByPath probeStorage () (str "") ≠ .error .invalidResourcePath ∧
    Manager.getResourceByPath unitStorage () (str "") = .error .resourceNotFound := by
  refine ⟨rfl, ?_, rfl⟩
  simp [show Manager.getResourceByPath probeStorage () (str "") = .error (.other 42) from rfl]

/-- C4 amended: splitting the empty string yields one empty segment, so
resolution of the empty path performs exactly one storage lookup, with
the empty key at root scope, and returns that lookup's outcome; the
InvalidPath branch is not taken. -/
theorem getResourceByPath_empty {σ : Type} (S : StorageOps σ) (st : σ) :
    Manager.getResourceByPath S st (str "") = S.getResource st (str "") none := rfl

/-- The permissions appended by AssignPermissions, relative to an
initial membership set: the incoming permissions not in the set, in
input order, first occurrence only. -/
def newPermsList : List Str → List Str → List Str
  | [], _ => []
  | p :: rest, seen =>
    if p ∈ seen then newPermsList rest seen
    else p :: newPermsList rest (p :: seen)

theorem assignPermsLoop_eq_append (incoming : List Str) :
    ∀ seen perms : List Str,
      Manager.assignPermsLoop seen perms incoming = perms ++ newPermsList incoming seen := by
  induction incoming with
  | nil => intro seen perms; simp [Manager.assignPermsLoop, newPermsList]
  | cons q rest ih =>
    intro seen perms
    unfold Manager.assignPermsLoop newPermsList
    by_cases hq : q ∈ seen
    · rw [if_pos hq, if_pos hq, ih]
    · rw [if_neg hq, if_neg hq, ih, List.append_assoc]
      rfl

theorem newPermsList_count (incoming : List Str) :
    ∀ (seen : List Str) (p : Str),
      (newPermsList incoming seen).count p =
        (if p ∈ incoming ∧ p ∉ seen then 1 else 0) := by
  induction incoming with
  | nil => intro seen p; simp [newPermsList]
  | cons q rest ih =>
    intro seen p
    unfold newPermsList
    by_cases hq : q ∈ seen
    · rw [if_pos hq, ih seen p]
      by_cases hp : p = q
      · subst hp; simp [hq]
      · simp [List.mem_cons, hp]
    · rw [if_neg hq]
      by_cases hp : p = q
      · subst hp
        rw [List.count_cons_self, ih (p :: seen) p]
        simp [hq]
      · rw [List.count_cons_of_ne hp, ih (q :: seen) p]
        simp only [List.mem_cons, hp, false_or]

theorem newPermsList_sublist (incoming : List Str) :
    ∀ seen : List Str, (newPermsList incoming seen).Sublist incoming := by
  induction incoming with
  | nil => intro seen; simp [newPermsList]
  | cons q rest ih =>
    intro seen
    unfold newPermsList
    by_cases hq : q ∈ seen
    · rw [if_pos hq]
      exact List.Sublist.cons q (ih seen)
    · rw [if_neg hq]
      exact List.Sublist.cons₂ q (ih (q :: seen))

/-- Count characterisation of addPermissions: every string occurs in the
result as often as in the current list, plus one when it is an incoming
permission not already present. -/
theorem addPermissions_count (current incoming : List Str) (p : Str) :
    (Manager.addPermissions current incoming).count p =
      current.count p + (if p ∈ incoming ∧ p ∉ current then 1 else 0) := by
  unfold Manager.addPermissions
  rw [assignPermsLoop_eq_append, List.count_append, newPermsList_count]

/-- C7: AssignPermissions loads the role and persists it with the
updated permission list; that list is the current list followed by the
incoming permissions not already present, in input order, each at most
once; so assigning [a, a, b] to a role holding neither leaves exactly
one copy of each. -/
theorem assignPermissions_spec {σ : Type} (S : StorageOps σ) (st : σ)
    (roleKey : Str) (permissions : List Str) (role : Role)
    (h : S.getRole st roleKey = .ok role) :
    Manager.AssignPermissions S st roleKey permissions =
      S.updateRole st
        { role with permissions := Manager.addPermissions role.permissions permissions } ∧
    Manager.addPermissions role.permissions permissions =
      role.permissions ++ newPermsList permissions role.permissions ∧
    (newPermsList permissions role.permissions).Sublist permissions ∧
    (∀ p, (Manager.addPermissions role.permissions permissions).count p =
      role.permissions.count p + (if p ∈ permissions ∧ p ∉ role.permissions then 1 else 0)) ∧
    (permissions = [str "a", str "a", str "b"] →
      str "a" ∉ role.permissions → str "b" ∉ role.permissions →
      (Manager.addPermissions role.permissions permissions).count (str "a") = 1 ∧
      (Manager.addPermissions role.permissions permissions).count (str "b") = 1) := by
  refine ⟨?_, assignPermsLoop_eq_append _ _ _, newPermsList_sublist _ _,
    fun p => addPermissions_count _ _ p, ?_⟩
  · simp [Manager.AssignPermissions, h]
  · rintro rfl ha hb
    constructor
    · rw [addPermissions_count]
      rw [List.count_eq_zero.mpr ha]
      simp [ha]
    · rw [addPermissions_count]
      rw [List.count_eq_zero.mpr hb]
      simp [hb]

/-- The editor role fixture: no permissions yet. -/
def editorRole : Role :=
  { id := 2, key := str "editor", name := str "Editor", description := [],
    permissions := [] }

/-- Storage where only the editor role exists. -/
def editorStorage : StorageOps Unit :=
  { unitStorage with
    getRole := fun _ k => if k = str "editor" then .ok editorRole else .error .roleNotFound }

/-- Witness for the AssignPermissions theorem: assigning [a, a, b] to
the empty editor role persists a list holding a and b exactly once. -/
theorem assignPermissions_spec_witness :
    Manager.AssignPermissions editorStorage () (str "editor") [str "a", str "a", str "b"]
      = .ok () ∧
    (Manager.addPermissions editorRole.permissions [str "a", str "a", str "b"]).count (str "a") = 1 ∧
    (Manager.addPermissions editorRole.permissions [str "a", str "a", str "b"]).count (str "b") = 1 := by
  have h := assignPermissions_spec editorStorage () (str "editor")
    [str "a", str "a", str "b"] editorRole rfl
  refine ⟨?_, (h.2.2.2.2 rfl (by decide) (by decide)).1, (h.2.2.2.2 rfl (by decide) (by decide)).2⟩
  rw [h.1]
  rfl

/-- C9: RemovePermissions loads the role and persists it with exactly
the stored permissions not present in the input set, in their original
relative order; when none of the input values was granted the persisted
list is unchanged and the call reduces to re-persisting the same role. -/
theorem removePermissions_spec {σ : Type} (S : StorageOps σ) (st : σ)
    (roleKey : Str) (permissions : List Str) (role : Role)
    (h : S.getRole st roleKey = .ok role) :
    Manager.RemovePermissions S st roleKey permissions =
      S.updateRole st
        { role with
            permissions := role.permissions.filter (fun p => decide (p ∉ permissions)) } ∧
    (role.permissions.filter (fun p => decide (p ∉ permissions))).Sublist role.permissions ∧
    (∀ p, p ∈ role.permissions.filter (fun p => decide (p ∉ permissions)) ↔
      (p ∈ role.permissions ∧ p ∉ permissions)) ∧
    ((∀ z ∈ permissions, z ∉ role.permissions) →
      role.permissions.filter (fun p => decide (p ∉ permissions)) = role.permissions ∧
      Manager.RemovePermissions S st roleKey permissions = S.updateRole st role) := by
  have hmain : Manager.RemovePermissions S st roleKey permissions =
      S.updateRole st
        { role with
            permissions := role.permissions.filter (fun p => decide (p ∉ permissions)) } := by
    simp [Manager.RemovePermissions, h]
  refine ⟨hmain, List.filter_sublist _, ?_, ?_⟩
  · intro p
    simp [List.mem_filter]
  · intro hz
    have hfix : role.permissions.filter (fun p => decide (p ∉ permissions)) =
        role.permissions := by
      apply List.filter_eq_self.mpr
      intro a ha
      simp only [decide_eq_true_eq]
      intro hc
      exact hz a hc ha
    refine ⟨hfix, ?_⟩
    rw [hmain, hfix]

/-- A second editor storage whose role already holds article.read, for
the removal witness. -/
def editorStorage2 : StorageOps Unit :=
  { unitStorage with
    getRole := fun _ k =>
      if k = str "editor" then .ok { editorRole with permissions := [str "article.read"] }
      else .error .roleNotFound }

/-- Witness for the RemovePermissions theorem: removing the never
granted value z from the editor role leaves the stored list unchanged
and returns no error. -/
theorem removePermissions_spec_witness :
    Manager.RemovePermissions editorStorage2 () (str "editor") [str "z"] = .ok () ∧
    ([str "article.read"].filter (fun p => decide (p ∉ [str "z"]))) = [str "article.read"] := by
  have h := removePermissions_spec editorStorage2 () (str "editor") [str "z"]
    { editorRole with permissions := [str "article.read"] } rfl
  have hz : ∀ z ∈ [str "z"], z ∉ [str "article.read"] := by decide
  refine ⟨?_, (h.2.2.2 hz).1⟩
  rw [(h.2.2.2 hz).2]
  rfl

/-- Modelled from the spec: the persistence backend behind GormStorage
(GORM over SQLite) is not part of the repository, so the database is
modelled from the Storage Port contract of the specification: rows in
insertion order, auto-incremented ids per table, lookups scoped by key
and parent, eager loading of a resource's actions, key-collision
detection on resource and role insertion, and full-record role update
by id. -/
structure DB where
  resources : List Resource
  actions : List Action
  roles : List Role
  nextRID : Nat
  nextAID : Nat
  nextRoleID : Nat
deriving DecidableEq, Repr

/-- The empty database. -/
def DB.empty : DB :=
  { resources := [], actions := [], roles := [], nextRID := 1, nextAID := 1, nextRoleID := 1 }

/-- Eager loading: a stored resource row with its actions attached. -/
def DB.hydrate (db : DB) (r : Resource) : Resource :=
  { r with actions := db.actions.filter (fun a => a.resourceID == r.id) }

/-- Row lookup scoped by key and parent id. -/
def DB.findResource (db : DB) (key : Str) (pid : Option Nat) : Option Resource :=
  db.resources.find? (fun r => r.key == key && r.parentID == pid)

def modelGetResource (db : DB) (key : Str) (pid : Option Nat) : Except Err Resource :=
  match db.findResource key pid with
  | some r => .ok (db.hydrate r)
  | none => .error .resourceNotFound

def modelCreateResource (db : DB) (r : Resource) : Except Err (DB × Resource) :=
  if db.resources.any (fun x => x.key == r.key && x.parentID == r.parentID) then
    .error .duplicateKey
  else
    .ok ({ db with
            resources := db.resources ++ [{ r with id := db.nextRID }],
            nextRID := db.nextRID + 1 },
         { r with id := db.nextRID })

def modelGetResourceByID (db : DB) (id : Nat) : Except Err Resource :=
  match db.resources.find? (fun r => r.id == id) with
  | some r => .ok (db.hydrate r)
  | none => .error .resourceNotFound

def modelListResources (db : DB) (pid : Option Nat) : Except Err (List Resource) :=
  .ok ((db.resources.filter (fun r => r.parentID == pid)).map db.hydrate)

def modelUpdateResource (db : DB) (r : Resource) : Except Err DB :=
  .ok { db with resources := db.resources.map (fun x => if x.id == r.id then r else x) }

/-- One step of the cascade: the ids joined by the immediate children of
the already collected ids. -/
def expandIds (resources : List Resource) (ids : List Nat) : List Nat :=
  ids ++ (resources.filter (fun r =>
    match r.parentID with
    | some p => decide (p ∈ ids) && !(decide (r.id ∈ ids))
    | none => false)).map (fun r => r.id)

/-- Transitive closure of the child relation, with enough fuel to cover
every row. -/
def descendantClosure (resources : List Resource) (ids : List Nat) : Nat → List Nat
  | 0 => ids
  | n + 1 => descendantClosure resources (expandIds resources ids) n

def modelDeleteResource (db : DB) (id : Nat) : Except Err DB :=
  .ok { db with
    resources := db.resources.filter
      (fun r => !(decide (r.id ∈ descendantClosure db.resources [id] db.resources.length))),
    actions := db.actions.filter
      (fun a => !(decide (a.resourceID ∈ descendantClosure db.resources [id] db.resources.length))) }

/-- Batch insertion binds every incoming action to the resource and
assigns consecutive ids. -/
def bindActions (start resourceID : Nat) : List Action → List Action
  | [] => []
  | a :: rest => { a with id := start, resourceID := resourceID } :: bindActions (start + 1) resourceID rest

def modelCreateActions (db : DB) (resourceID : Nat) (actions : List Action) : Except Err DB :=
  .ok { db with
    actions := db.actions ++ bindActions db.nextAID resourceID actions,
    nextAID := db.nextAID + actions.length }

def modelGetAction (db : DB) (resourceID : Nat) (key : Str) : Except Err Action :=
  match db.actions.find? (fun a => a.resourceID == resourceID && a.key == key) with
  | some a => .ok a
  | none => .error .actionNotFound

def modelListActions (db : DB) (resourceID : Nat) : Except Err (List Action) :=
  .ok (db.actions.filter (fun a => a.resourceID == resourceID))

def modelDeleteAction (db : DB) (id : Nat) : Except Err DB :=
  .ok { db with actions := db.actions.filter (fun a => !(a.id == id)) }

def modelCreateRole (db : DB) (role : Role) : Except Err (DB × Role) :=
  if db.roles.any (fun r => r.key == role.key) then
    .error .duplicateKey
  else
    .ok ({ db with
            roles := db.roles ++ [{ role with id := db.nextRoleID }],
            nextRoleID := db.nextRoleID + 1 },
         { role with id := db.nextRoleID })

def modelGetRole (db : DB) (key : Str) : Except Err Role :=
  match db.roles.find? (fun r => r.key == key) with
  | some r => .ok r
  | none => .error .roleNotFound

def modelGetRoleByID (db : DB) (id : Nat) : Except Err Role :=
  match db.roles.find? (fun r => r.id == id) with
  | some r => .ok r
  | none => .error .roleNotFound

def modelListRoles (db : DB) : Except Err (List Role) :=
  .ok db.roles

def modelUpdateRole (db : DB) (role : Role) : Except Err DB :=
  .ok { db with roles := db.roles.map (fun r => if r.id == role.id then role else r) }

def modelDeleteRole (db : DB) (id : Nat) : Except Err DB :=
  .ok { db with roles := db.roles.filter (fun r => !(r.id == id)) }

/-- The model storage bundled as a Storage Port implementation. -/
def modelStorage : StorageOps DB where
  createResource := modelCreateResource
  getResource := modelGetResource
  getResourceByID := modelGetResourceByID
  listResources := modelListResources
  updateResource := modelUpdateResource
  deleteResource := modelDeleteResource
  createActions := modelCreateActions
  getAction := modelGetAction
  listActions := modelListActions
  deleteAction := modelDeleteAction
  createRole := modelCreateRole
  getRole := modelGetRole
  getRoleByID := modelGetRoleByID
  listRoles := modelListRoles
  updateRole := modelUpdateRole
  deleteRole := modelDeleteRole

/-- Number of stored actions bound to a resource id. -/
def countActions (db : DB) (rid : Nat) : Nat :=
  (db.actions.filter (fun a => a.resourceID == rid)).length

theorem bindActions_filter_self (as_ : List Action) :
    ∀ start rid, (bindActions start rid as_).filter (fun a => a.resourceID == rid) =
      bindActions start rid as_ := by
  induction as_ with
  | nil => intro start rid; rfl
  | cons a rest ih =>
    intro start rid
    simp [bindActions, List.filter_cons, ih]

theorem bindActions_length (as_ : List Action) :
    ∀ start rid, (bindActions start rid as_).length = as_.length := by
  induction as_ with
  | nil => intro start rid; rfl
  | cons a rest ih => intro start rid; simp [bindActions, ih]

/-- createActions in the model always succeeds, leaves the resource and
role tables untouched, and grows the action count of the target
resource by the batch size. -/
theorem modelCreateActions_ok (db : DB) (rid : Nat) (as_ : List Action) :
    ∃ db', modelCreateActions db rid as_ = .ok db' ∧
      db'.resources = db.resources ∧ db'.roles = db.roles ∧
      countActions db' rid = countActions db rid + as_.length := by
  refine ⟨_, rfl, rfl, rfl, ?_⟩
  show ((db.actions ++ bindActions db.nextAID rid as_).filter
    (fun a => a.resourceID == rid)).length = countActions db rid + as_.length
  rw [List.filter_append, List.length_append, bindActions_filter_self, bindActions_length]
  rfl

/-- The action-count step shared by both branches of the loops: the
conditional createActions call always succeeds in the model. -/
theorem actionsStep_ok (db : DB) (rid : Nat) (as_ : List Action) :
    ∃ db', (if 0 < as_.length then modelStorage.createActions db rid as_ else .ok db) = .ok db' ∧
      db'.resources = db.resources ∧ db'.roles = db.roles ∧
      countActions db' rid = countActions db rid + as_.length := by
  by_cases h : 0 < as_.length
  · rw [if_pos h]
    exact modelCreateActions_ok db rid as_
  · rw [if_neg h]
    have hlen : as_.length = 0 := Nat.eq_zero_of_not_pos h
    exact ⟨db, rfl, rfl, rfl, by rw [hlen]; omega⟩

/-- Successful resource insertion in the model appends exactly the new
row, which carries the requested key and parent. -/
theorem modelCreateResource_ok (st : DB) (r0 : Resource) (p : DB × Resource)
    (h : modelCreateResource st r0 = .ok p) :
    p.1.resources = st.resources ++ [p.2] ∧ p.2.key = r0.key ∧
    p.2.parentID = r0.parentID ∧ p.2.id = st.nextRID := by
  unfold modelCreateResource at h
  split at h
  · exact absurd h (by simp)
  · injection h with h'
    subst h'
    exact ⟨rfl, rfl, rfl, rfl⟩

/-- The sub-resource creation loop only ever appends rows: existing rows
survive it. -/
theorem createSubsLoop_mem (subs : List Resource) :
    ∀ (st st' : DB) (pid : Nat),
      Manager.createSubsLoop modelStorage st pid subs = .ok st' →
      ∀ r ∈ st.resources, r ∈ st'.resources := by
  induction subs with
  | nil =>
    intro st st' pid h r hr
    injection h with h'
    rw [← h']
    exact hr
  | cons sub rest ih =>
    intro st st' pid h r hr
    unfold Manager.createSubsLoop at h
    cases hc : modelStorage.createResource st (Manager.subResourceOf pid sub) with
    | error e => rw [hc] at h; simp at h
    | ok p =>
      rw [hc] at h
      obtain ⟨st1, subR⟩ := p
      obtain ⟨hres0, -, -, -⟩ := modelCreateResource_ok st _ _ hc
      have hres : st1.resources = st.resources ++ [subR] := hres0
      dsimp only at h
      cases ha : (if 0 < sub.actions.length then
          modelStorage.createActions st1 subR.id sub.actions else .ok st1) with
      | error e => rw [ha] at h; simp at h
      | ok st2 =>
        rw [ha] at h
        obtain ⟨st2', ha', hres2, -, -⟩ := actionsStep_ok st1 subR.id sub.actions
        rw [ha'] at ha
        injection ha with ha''
        have hr1 : r ∈ st1.resources := by
          rw [hres]
          exact List.mem_append_left _ hr
        have hr2 : r ∈ st2.resources := by
          rw [← ha'', hres2]
          exact hr1
        exact ih st2 st' pid h r hr2

/-- A row whose key and parent match is found by the scoped lookup. -/
theorem modelGetResource_ok_of_mem (db : DB) (key : Str) (pid : Option Nat)
    (x : Resource) (hmem : x ∈ db.resources) (hk : x.key = key) (hp : x.parentID = pid) :
    ∃ r, modelStorage.getResource db key pid = .ok r := by
  have hsome : (db.resources.find? (fun r => r.key == key && r.parentID == pid)).isSome := by
    rw [List.find?_isSome]
    exact ⟨x, hmem, by simp [hk, hp]⟩
  obtain ⟨y, hy⟩ := Option.isSome_iff_exists.mp hsome
  refine ⟨db.hydrate y, ?_⟩
  show modelGetResource db key pid = .ok (db.hydrate y)
  unfold modelGetResource DB.findResource
  rw [hy]

/-- C8: over the model storage, CreateResource fails with ResourceExists
whenever the root lookup of the config key succeeds — returning no new
state, hence creating nothing — and a successful creation makes an
immediate second call with the same config fail with ResourceExists. -/
theorem createResource_strict (db : DB) (config : ResourceConfig) :
    (∀ r, modelStorage.getResource db config.key none = .ok r →
      Manager.CreateResource modelStorage db config = .error .resourceExists) ∧
    (∀ db' res, Manager.CreateResource modelStorage db config = .ok (db', res) →
      Manager.CreateResource modelStorage db' config = .error .resourceExists) := by
  constructor
  · intro r h
    unfold Manager.CreateResource
    rw [h]
  · intro db' res h
    unfold Manager.CreateResource at h
    cases hget : modelStorage.getResource db config.key none with
    | ok r => rw [hget] at h; simp at h
    | error e =>
      rw [hget] at h
      dsimp only at h
      unfold Manager.createResourceCore at h
      cases hc : modelStorage.createResource db (Manager.resourceOfConfig config) with
      | error e2 => rw [hc] at h; simp at h
      | ok p =>
        rw [hc] at h
        obtain ⟨st1, row⟩ := p
        obtain ⟨hres0, hkey0, hpid0, -⟩ := modelCreateResource_ok db _ _ hc
        have hres : st1.resources = db.resources ++ [row] := hres0
        have hkey : row.key = config.key := hkey0
        have hpid : row.parentID = none := hpid0
        dsimp only at h
        cases ha : (if 0 < config.actions.length then
            modelStorage.createActions st1 row.id config.actions else .ok st1) with
        | error e2 => rw [ha] at h; simp at h
        | ok st2 =>
          rw [ha] at h
          dsimp only at h
          cases hs : Manager.createSubsLoop modelStorage st2 row.id config.subResources with
          | error e2 => rw [hs] at h; simp at h
          | ok st3 =>
            rw [hs] at h
            dsimp only at h
            cases hg : modelStorage.getResourceByID st3 row.id with
            | error e2 => rw [hg] at h; simp at h
            | ok res2 =>
              rw [hg] at h
              dsimp only at h
              injection h with h'
              injection h' with h1 h2
              obtain ⟨st2', ha', hres2, -, -⟩ := actionsStep_ok st1 row.id config.actions
              rw [ha'] at ha
              injection ha with ha''
              have hrow1 : row ∈ st1.resources := by
                rw [hres]
                exact List.mem_append_right _ (List.mem_singleton.mpr rfl)
              have hrow2 : row ∈ st2.resources := by
                rw [← ha'', hres2]
                exact hrow1
              have hrow3 : row ∈ st3.resources :=
                createSubsLoop_mem config.subResources st2 st3 row.id hs row hrow2
              have hrowdb' : row ∈ db'.resources := by
                rw [← h1]
                exact hrow3
              obtain ⟨r2, hr2⟩ :=
                modelGetResource_ok_of_mem db' config.key none row hrowdb' hkey hpid
              unfold Manager.CreateResource
              rw [hr2]

/-- Root fixture row for the concrete scenarios: the article resource. -/
def articleRow : Resource :=
  { id := 1, key := str "article", name := [], description := [], parentID := none,
    actions := [] }

/-- Stored comment row under the article, as the model creates it. -/
def commentRow : Resource :=
  { id := 2, key := str "comment", name := [], description := [], parentID := some 1,
    actions := [] }

/-- A stored action of the comment resource. -/
def commentEditAction : Action :=
  { id := 1, key := str "edit", name := [], description := [], resourceID := 2 }

/-- Database holding only the article root. -/
def dbOne : DB :=
  { resources := [articleRow], actions := [], roles := [], nextRID := 2, nextAID := 1,
    nextRoleID := 1 }

/-- Database holding the article root, the comment sub-resource and its
edit action: the state after one CreateResources call on dbOne. -/
def dbTwo : DB :=
  { resources := [articleRow, commentRow], actions := [commentEditAction], roles := [],
    nextRID := 3, nextAID := 2, nextRoleID := 1 }

/-- The candidate sub-resource handed to CreateResources: key comment
with one action. -/
def commentSub : Resource :=
  { id := 0, key := str "comment", name := [], description := [], parentID := none,
    actions := [DefineAction (str "edit") [] []] }

/-- The article root config used by the concrete scenarios. -/
def articleCfg : ResourceConfig :=
  { key := str "article", name := [], description := [], actions := [], subResources := [] }

/-- Witness for the CreateResource theorem: on the empty database the
article config succeeds, and the same call on the resulting state fails
with ResourceExists. -/
theorem createResource_strict_witness :
    Manager.CreateResource modelStorage DB.empty articleCfg = .ok (dbOne, articleRow) ∧
    Manager.CreateResource modelStorage dbOne articleCfg = .error .resourceExists := by
  have h1 : Manager.CreateResource modelStorage DB.empty articleCfg = .ok (dbOne, articleRow) :=
    rfl
  exact ⟨h1, (createResource_strict DB.empty articleCfg).2 dbOne articleRow h1⟩

/-- Insertion succeeds and appends exactly the new row when no row with
the same key and parent exists. -/
theorem modelCreateResource_not_exists (db : DB) (r0 : Resource)
    (h : db.resources.any (fun x => x.key == r0.key && x.parentID == r0.parentID) = false) :
    modelCreateResource db r0 =
      .ok ({ db with
              resources := db.resources ++ [{ r0 with id := db.nextRID }],
              nextRID := db.nextRID + 1 },
           { r0 with id := db.nextRID }) := by
  unfold modelCreateResource
  rw [if_neg]
  simp [h]

/-- C3: CreateResources on a resolvable parent upserts by key.  A
candidate whose key already exists under the parent produces no error:
the call succeeds, no resource row is added or removed — in particular
no new sibling appears — and the existing sub-resource's action count
grows by the candidate's action count.  A candidate whose key is not
found is created fresh under the parent, with its actions. -/
theorem createResources_upsert (db : DB) (parentPath : Str) (sub parent : Resource)
    (hparent : Manager.getResourceByPath modelStorage db parentPath = .ok parent) :
    (∀ existing, modelStorage.getResource db sub.key (some parent.id) = .ok existing →
      ∃ db', Manager.CreateResources modelStorage db parentPath [sub] = .ok db' ∧
        db'.resources = db.resources ∧
        countActions db' existing.id = countActions db existing.id + sub.actions.length) ∧
    (modelStorage.getResource db sub.key (some parent.id) = .error .resourceNotFound →
      ∃ db' fresh, Manager.CreateResources modelStorage db parentPath [sub] = .ok db' ∧
        db'.resources = db.resources ++ [fresh] ∧
        fresh.key = sub.key ∧ fresh.parentID = some parent.id ∧
        countActions db' fresh.id = countActions db fresh.id + sub.actions.length) := by
  constructor
  · intro existing hex
    obtain ⟨db1, ha, hres, -, hcount⟩ := actionsStep_ok db existing.id sub.actions
    refine ⟨db1, ?_, hres, hcount⟩
    unfold Manager.CreateResources
    rw [hparent]
    dsimp only
    unfold Manager.createResourcesLoop
    rw [hex]
    dsimp only
    rw [ha]
    rfl
  · intro hnf
    have hfind : db.findResource sub.key (some parent.id) = none := by
      cases hf : db.findResource sub.key (some parent.id) with
      | none => rfl
      | some r =>
        have hnf' : modelGetResource db sub.key (some parent.id) = .error .resourceNotFound :=
          hnf
        unfold modelGetResource at hnf'
        rw [hf] at hnf'
        simp at hnf'
    have hany : db.resources.any
        (fun x => x.key == sub.key && x.parentID == some parent.id) = false := by
      unfold DB.findResource at hfind
      rw [List.find?_eq_none] at hfind
      rw [List.any_eq_false]
      exact hfind
    have hguard : db.resources.any
        (fun x => x.key == (Manager.subResourceOf parent.id sub).key &&
          x.parentID == (Manager.subResourceOf parent.id sub).parentID) = false := hany
    have hc : modelStorage.createResource db (Manager.subResourceOf parent.id sub) =
        .ok ({ db with
                resources := db.resources ++
                  [{ Manager.subResourceOf parent.id sub with id := db.nextRID }],
                nextRID := db.nextRID + 1 },
             { Manager.subResourceOf parent.id sub with id := db.nextRID }) :=
      modelCreateResource_not_exists db (Manager.subResourceOf parent.id sub) hguard
    obtain ⟨db1, ha, hres1, -, hcount1⟩ := actionsStep_ok
      { db with
          resources := db.resources ++
            [{ Manager.subResourceOf parent.id sub with id := db.nextRID }],
          nextRID := db.nextRID + 1 }
      ({ Manager.subResourceOf parent.id sub with id := db.nextRID }).id sub.actions
    refine ⟨db1, { Manager.subResourceOf parent.id sub with id := db.nextRID },
      ?_, ?_, rfl, rfl, ?_⟩
    · unfold Manager.CreateResources
      rw [hparent]
      dsimp only
      unfold Manager.createResourcesLoop
      rw [hnf]
      dsimp only
      rw [hc]
      dsimp only
      rw [ha]
      rfl
    · exact hres1
    · exact hcount1

/-- Witness for the CreateResources theorem: on the database holding
only the article root, the comment candidate is created fresh with its
one action; on the database where the comment already exists with that
action, the same call succeeds again, adds no sibling, and grows the
comment's action count by one. -/
theorem createResources_upsert_witness :
    (∃ db' fresh,
      Manager.CreateResources modelStorage dbOne (str "article") [commentSub] = .ok db' ∧
      db'.resources = dbOne.resources ++ [fresh] ∧
      fresh.key = commentSub.key ∧ fresh.parentID = some articleRow.id ∧
      countActions db' fresh.id = countActions dbOne fresh.id + commentSub.actions.length) ∧
    (∃ db',
      Manager.CreateResources modelStorage dbTwo (str "article") [commentSub] = .ok db' ∧
      db'.resources = dbTwo.resources ∧
      countActions db' (DB.hydrate dbTwo commentRow).id =
        countActions dbTwo (DB.hydrate dbTwo commentRow).id + commentSub.actions.length) := by
  constructor
  · exact (createResources_upsert dbOne (str "article") commentSub articleRow rfl).2 rfl
  · exact (createResources_upsert dbTwo (str "article") commentSub articleRow rfl).1
      (DB.hydrate dbTwo commentRow) rfl

theorem modelGetResource_ne_invalid (db : DB) (k : Str) (pid : Option Nat) :
    modelStorage.getResource db k pid ≠ .error .invalidResourcePath := by
  show modelGetResource db k pid ≠ .error .invalidResourcePath
  unfold modelGetResource
  split <;> simp

theorem modelGetResourceByID_ne_invalid (db : DB) (i : Nat) :
    modelStorage.getResourceByID db i ≠ .error .invalidResourcePath := by
  show modelGetResourceByID db i ≠ .error .invalidResourcePath
  unfold modelGetResourceByID
  split <;> simp

theorem modelGetRole_ne_invalid (db : DB) (k : Str) :
    modelStorage.getRole db k ≠ .error .invalidResourcePath := by
  show modelGetRole db k ≠ .error .invalidResourcePath
  unfold modelGetRole
  split <;> simp

theorem modelCreateResource_error_dup (db : DB) (r : Resource) (e : Err)
    (h : modelStorage.createResource db r = .error e) : e = .duplicateKey := by
  have h' : modelCreateResource db r = .error e := h
  unfold modelCreateResource at h'
  split at h'
  · injection h' with h''
    exact h''.symm
  · simp at h'

/-- The resolver never manufactures the InvalidPath error out of a walk:
only the storage could supply it. -/
theorem walkPath_ne_invalid {σ : Type} (S : StorageOps σ) (st : σ)
    (hS : ∀ k pid, S.getResource st k pid ≠ .error .invalidResourcePath) :
    ∀ (ks : List Str) (pid : Option Nat) (k : Str),
      Manager.walkPath S st pid k ks ≠ .error .invalidResourcePath := by
  intro ks
  induction ks with
  | nil =>
    intro pid k
    exact hS k pid
  | cons k2 rest ih =>
    intro pid k
    unfold Manager.walkPath
    cases hg : S.getResource st k pid with
    | error e =>
      intro hbad
      injection hbad with hb
      exact hS k pid (by rw [hg, hb])
    | ok r => exact ih (some r.id) k2

theorem createSubsLoop_ne_invalid (subs : List Resource) :
    ∀ (st : DB) (pid : Nat),
      Manager.createSubsLoop modelStorage st pid subs ≠ .error .invalidResourcePath := by
  induction subs with
  | nil => intro st pid; simp [Manager.createSubsLoop]
  | cons sub rest ih =>
    intro st pid
    unfold Manager.createSubsLoop
    cases hc : modelStorage.createResource st (Manager.subResourceOf pid sub) with
    | error e =>
      have := modelCreateResource_error_dup st _ e hc
      subst this
      simp
    | ok p =>
      obtain ⟨st1, subR⟩ := p
      dsimp only
      obtain ⟨st2, ha, -, -, -⟩ := actionsStep_ok st1 subR.id sub.actions
      rw [ha]
      exact ih st2 pid

theorem createResourcesLoop_ne_invalid (subs : List Resource) :
    ∀ (st : DB) (pid : Nat),
      Manager.createResourcesLoop modelStorage st pid subs ≠ .error .invalidResourcePath := by
  induction subs with
  | nil => intro st pid; simp [Manager.createResourcesLoop]
  | cons sub rest ih =>
    intro st pid
    unfold Manager.createResourcesLoop
    cases hg : modelStorage.getResource st sub.key (some pid) with
    | ok existing =>
      dsimp only
      obtain ⟨st1, ha, -, -, -⟩ := actionsStep_ok st existing.id sub.actions
      rw [ha]
      exact ih st1 pid
    | error e =>
      dsimp only
      cases hc : modelStorage.createResource st (Manager.subResourceOf pid sub) with
      | error e2 =>
        have := modelCreateResource_error_dup st _ e2 hc
        subst this
        simp
      | ok p =>
        obtain ⟨st1, subR⟩ := p
        dsimp only
        obtain ⟨st2, ha, -, -, -⟩ := actionsStep_ok st1 subR.id sub.actions
        rw [ha]
        exact ih st2 pid

theorem getResourceByPath_model_ne_invalid (db : DB) (path : Str) :
    Manager.getResourceByPath modelStorage db path ≠ .error .invalidResourcePath := by
  unfold Manager.getResourceByPath
  cases hp : Manager.parseResourcePath path with
  | nil =>
    exact absurd hp (by
      unfold Manager.parseResourcePath List.splitOn
      exact List.splitOnP_ne_nil _ path)
  | cons k rest =>
    exact walkPath_ne_invalid modelStorage db (modelGetResource_ne_invalid db) rest none k

theorem checkRolesPermission_model_ne_invalid (keys : List Str) :
    ∀ (db : DB) (req : Str),
      Manager.CheckRolesPermission modelStorage db keys req ≠ .error .invalidResourcePath := by
  induction keys with
  | nil => intro db req; simp [Manager.CheckRolesPermission]
  | cons k rest ih =>
    intro db req
    unfold Manager.CheckRolesPermission Manager.CheckRolePermission
    cases hg : modelStorage.getRole db k with
    | error e =>
      dsimp only
      by_cases he : e = .roleNotFound
      · rw [if_pos he]
        exact ih db req
      · rw [if_neg he]
        intro hbad
        injection hbad with hb
        exact modelGetRole_ne_invalid db k (by rw [hg, hb])
    | ok role =>
      dsimp only
      cases CheckPermissions req role.permissions with
      | true => simp
      | false => exact ih db req

/-- C10: splitting any path — the empty string included — yields a
non-empty key sequence, so the InvalidPath guard of getResourceByPath is
unreachable: over any storage that does not itself produce that error
the resolver never returns it, and over the model storage no Manager
operation returns ErrInvalidResourcePath on any input. -/
theorem invalidPath_unreachable :
    (∀ path : Str, Manager.parseResourcePath path ≠ []) ∧
    (∀ (σ : Type) (S : StorageOps σ) (st : σ) (path : Str),
      (∀ k pid, S.getResource st k pid ≠ .error .invalidResourcePath) →
      Manager.getResourceByPath S st path ≠ .error .invalidResourcePath) ∧
    (∀ (db : DB) (path : Str),
      Manager.GetResource modelStorage db path ≠ .error .invalidResourcePath) ∧
    (∀ (db : DB) (path : Str) (as_ : List Action),
      Manager.AddActions modelStorage db path as_ ≠ .error .invalidResourcePath) ∧
    (∀ (db : DB) (path : Str) (subs : List Resource),
      Manager.CreateResources modelStorage db path subs ≠ .error .invalidResourcePath) ∧
    (∀ (db : DB) (cfg : ResourceConfig),
      Manager.CreateResource modelStorage db cfg ≠ .error .invalidResourcePath) ∧
    (∀ (db : DB) (path : Str),
      Manager.DeleteResource modelStorage db path ≠ .error .invalidResourcePath) ∧
    (∀ (db : DB) (key cfgName cfgDesc : Str) (perms : List Str),
      Manager.CreateRole modelStorage db key
        { name := cfgName, description := cfgDesc, permissions := perms } ≠
        .error .invalidResourcePath) ∧
    (∀ (db : DB) (rk : Str) (ps : List Str),
      Manager.AssignPermissions modelStorage db rk ps ≠ .error .invalidResourcePath) ∧
    (∀ (db : DB) (rk : Str) (ps : List Str),
      Manager.RemovePermissions modelStorage db rk ps ≠ .error .invalidResourcePath) ∧
    (∀ (db : DB) (k : Str),
      Manager.DeleteRole modelStorage db k ≠ .error .invalidResourcePath) ∧
    (∀ (db : DB) (rk req : Str),
      Manager.CheckRolePermission modelStorage db rk req ≠ .error .invalidResourcePath) ∧
    (∀ (db : DB) (keys : List Str) (req : Str),
      Manager.CheckRolesPermission modelStorage db keys req ≠ .error .invalidResourcePath) := by
  refine ⟨?_, ?_, ?_, ?_, ?_, ?_, ?_, ?_, ?_, ?_, ?_, ?_, ?_⟩
  · intro path
    unfold Manager.parseResourcePath List.splitOn
    exact List.splitOnP_ne_nil _ path
  · intro σ S st path hS
    unfold Manager.getResourceByPath
    cases hp : Manager.parseResourcePath path with
    | nil =>
      exact absurd hp (by
        unfold Manager.parseResourcePath List.splitOn
        exact List.splitOnP_ne_nil _ path)
    | cons k rest => exact walkPath_ne_invalid S st hS rest none k
  · intro db path
    exact getResourceByPath_model_ne_invalid db path
  · intro db path as_
    unfold Manager.AddActions
    cases hg : Manager.getResourceByPath modelStorage db path with
    | error e =>
      intro hbad
      injection hbad with hb
      exact getResourceByPath_model_ne_invalid db path (by rw [hg, hb])
    | ok r =>
      show modelCreateActions db r.id as_ ≠ .error .invalidResourcePath
      simp [modelCreateActions]
  · intro db path subs
    unfold Manager.CreateResources
    cases hg : Manager.getResourceByPath modelStorage db path with
    | error e =>
      intro hbad
      injection hbad with hb
      exact getResourceByPath_model_ne_invalid db path (by rw [hg, hb])
    | ok parent => exact createResourcesLoop_ne_invalid subs db parent.id
  · intro db cfg
    unfold Manager.CreateResource
    cases hg : modelStorage.getResource db cfg.key none with
    | ok r => simp
    | error e =>
      dsimp only
      unfold Manager.createResourceCore
      cases hc : modelStorage.createResource db (Manager.resourceOfConfig cfg) with
      | error e2 =>
        have := modelCreateResource_error_dup db _ e2 hc
        subst this
        simp
      | ok p =>
        obtain ⟨st1, row⟩ := p
        dsimp only
        obtain ⟨st2, ha, -, -, -⟩ := actionsStep_ok st1 row.id cfg.actions
        rw [ha]
        dsimp only
        cases hs : Manager.createSubsLoop modelStorage st2 row.id cfg.subResources with
        | error e2 =>
          intro hbad
          injection hbad with hb
          exact createSubsLoop_ne_invalid cfg.subResources st2 row.id (by rw [hs, hb])
        | ok st3 =>
          dsimp only
          cases hrl : modelStorage.getResourceByID st3 row.id with
          | error e2 =>
            intro hbad
            injection hbad with hb
            exact modelGetResourceByID_ne_invalid st3 row.id (by rw [hrl, hb])
          | ok r2 => simp
  · intro db path
    unfold Manager.DeleteResource
    cases hg : Manager.getResourceByPath modelStorage db path with
    | error e =>
      intro hbad
      injection hbad with hb
      exact getResourceByPath_model_ne_invalid db path (by rw [hg, hb])
    | ok r =>
      show modelDeleteResource db r.id ≠ .error .invalidResourcePath
      simp [modelDeleteResource]
  · intro db key cfgName cfgDesc perms
    unfold Manager.CreateRole
    cases hg : modelStorage.getRole db key with
    | ok r => simp
    | error e =>
      dsimp only
      show modelCreateRole db _ ≠ _
      unfold modelCreateRole
      split <;> simp
  · intro db rk ps
    unfold Manager.AssignPermissions
    cases hg : modelStorage.getRole db rk with
    | error e =>
      intro hbad
      injection hbad with hb
      exact modelGetRole_ne_invalid db rk (by rw [hg, hb])
    | ok role =>
      show modelUpdateRole db _ ≠ .error .invalidResourcePath
      simp [modelUpdateRole]
  · intro db rk ps
    unfold Manager.RemovePermissions
    cases hg : modelStorage.getRole db rk with
    | error e =>
      intro hbad
      injection hbad with hb
      exact modelGetRole_ne_invalid db rk (by rw [hg, hb])
    | ok role =>
      show modelUpdateRole db _ ≠ .error .invalidResourcePath
      simp [modelUpdateRole]
  · intro db k
    unfold Manager.DeleteRole
    cases hg : modelStorage.getRole db k with
    | error e =>
      intro hbad
      injection hbad with hb
      exact modelGetRole_ne_invalid db k (by rw [hg, hb])
    | ok role =>
      show modelDeleteRole db role.id ≠ .error .invalidResourcePath
      simp [modelDeleteRole]
  · intro db rk req
    unfold Manager.CheckRolePermission
    cases hg : modelStorage.getRole db rk with
    | error e =>
      intro hbad
      injection hbad with hb
      exact modelGetRole_ne_invalid db rk (by rw [hg, hb])
    | ok role => simp
  · intro db keys req
    exact checkRolesPermission_model_ne_invalid keys db req

/-- Witness for the InvalidPath theorem: at the empty database the
hypothesis on the storage holds and resolving the empty path does not
produce InvalidPath. -/
theorem invalidPath_unreachable_witness :
    Manager.getResourceByPath modelStorage DB.empty (str "") ≠
      .error .invalidResourcePath := by
  exact invalidPath_unreachable.2.1 DB modelStorage DB.empty (str "")
    (fun k pid => modelGetResource_ne_invalid DB.empty k pid)

/-- Storage whose resource lookups always fail with a distinctive
opaque error but whose other operations succeed, exhibiting the
swallowed pre-check failure of CreateResource. -/
def flakyStorage : StorageOps Unit :=
  { unitStorage with
    getResource := fun _ _ _ => .error (.other 7),
    getResourceByID := fun _ _ => .ok articleRow }

/-- C5 counterexample: the existence pre-check of CreateResource fails
with an opaque storage error that is not the not-found outcome, yet
CreateResource neither propagates it nor stops: it proceeds with the
creation and returns success. -/
theorem createResource_swallows_lookup_error :
    flakyStorage.getResource () (str "article") none = .error (.other 7) ∧
    Manager.CreateResource flakyStorage () articleCfg = .ok ((), articleRow) ∧
    Manager.CreateResource flakyStorage () articleCfg ≠ .error (.other 7) := by
  refine ⟨rfl, rfl, ?_⟩
  simp [show Manager.CreateResource flakyStorage () articleCfg = .ok ((), articleRow) from rfl]

/-- C5 amended: every Manager operation propagates the failures of its
underlying storage calls verbatim — resolution failures, creation
failures, role lookup failures, update and delete failures — with these
exceptions: the two documented no-ops, and the existence pre-checks of
CreateResource, CreateResources and CreateRole, which treat ANY lookup
failure (not only the not-found outcome) as "does not exist" and
proceed with creation instead of propagating it. -/
theorem storage_error_propagation (σ : Type) (S : StorageOps σ) (st : σ) :
    (∀ cfg e, S.getResource st cfg.key none = .error e →
      Manager.CreateResource S st cfg = Manager.createResourceCore S st cfg) ∧
    (∀ cfg e, S.createResource st (Manager.resourceOfConfig cfg) = .error e →
      Manager.createResourceCore S st cfg = .error e) ∧
    (∀ cfg st1 r e, S.createResource st (Manager.resourceOfConfig cfg) = .ok (st1, r) →
      (if 0 < cfg.actions.length then S.createActions st1 r.id cfg.actions
       else .ok st1) = .error e →
      Manager.createResourceCore S st cfg = .error e) ∧
    (∀ cfg st1 r st2 e, S.createResource st (Manager.resourceOfConfig cfg) = .ok (st1, r) →
      (if 0 < cfg.actions.length then S.createActions st1 r.id cfg.actions
       else .ok st1) = .ok st2 →
      Manager.createSubsLoop S st2 r.id cfg.subResources = .error e →
      Manager.createResourceCore S st cfg = .error e) ∧
    (∀ cfg st1 r st2 st3 e,
      S.createResource st (Manager.resourceOfConfig cfg) = .ok (st1, r) →
      (if 0 < cfg.actions.length then S.createActions st1 r.id cfg.actions
       else .ok st1) = .ok st2 →
      Manager.createSubsLoop S st2 r.id cfg.subResources = .ok st3 →
      S.getResourceByID st3 r.id = .error e →
      Manager.createResourceCore S st cfg = .error e) ∧
    (∀ path as_ e, Manager.getResourceByPath S st path = .error e →
      Manager.AddActions S st path as_ = .error e) ∧
    (∀ path as_ r, Manager.getResourceByPath S st path = .ok r →
      Manager.AddActions S st path as_ = S.createActions st r.id as_) ∧
    (∀ pp subs e, Manager.getResourceByPath S st pp = .error e →
      Manager.CreateResources S st pp subs = .error e) ∧
    (∀ pid sub rest existing e, S.getResource st sub.key (some pid) = .ok existing →
      (if 0 < sub.actions.length then S.createActions st existing.id sub.actions
       else .ok st) = .error e →
      Manager.createResourcesLoop S st pid (sub :: rest) = .error e) ∧
    (∀ pid sub rest e e2, S.getResource st sub.key (some pid) = .error e →
      S.createResource st (Manager.subResourceOf pid sub) = .error e2 →
      Manager.createResourcesLoop S st pid (sub :: rest) = .error e2) ∧
    (∀ key cfg e, S.getRole st key = .error e →
      Manager.CreateRole S st key cfg = S.createRole st (Manager.roleOfConfig key cfg)) ∧
    (∀ rk ps e, S.getRole st rk = .error e →
      Manager.AssignPermissions S st rk ps = .error e) ∧
    (∀ rk ps e, S.getRole st rk = .error e →
      Manager.RemovePermissions S st rk ps = .error e) ∧
    (∀ k e, S.getRole st k = .error e → Manager.DeleteRole S st k = .error e) ∧
    (∀ k role, S.getRole st k = .ok role →
      Manager.DeleteRole S st k = S.deleteRole st role.id) ∧
    (∀ path e, Manager.getResourceByPath S st path = .error e →
      Manager.DeleteResource S st path = .error e) ∧
    (∀ path r, Manager.getResourceByPath S st path = .ok r →
      Manager.DeleteResource S st path = S.deleteResource st r.id) ∧
    (∀ rk req e, S.getRole st rk = .error e →
      Manager.CheckRolePermission S st rk req = .error e) ∧
    (∀ k pid e, S.getResource st k pid = .error e →
      Manager.walkPath S st pid k [] = .error e) ∧
    (∀ k k2 rest pid e, S.getResource st k pid = .error e →
      Manager.walkPath S st pid k (k2 :: rest) = .error e) := by
  refine ⟨?_, ?_, ?_, ?_, ?_, ?_, ?_, ?_, ?_, ?_, ?_, ?_, ?_, ?_, ?_, ?_, ?_, ?_, ?_, ?_⟩
  · intro cfg e h
    unfold Manager.CreateResource
    rw [h]
  · intro cfg e h
    unfold Manager.createResourceCore
    rw [h]
  · intro cfg st1 r e h ha
    unfold Manager.createResourceCore
    rw [h]
    dsimp only
    rw [ha]
  · intro cfg st1 r st2 e h ha hs
    unfold Manager.createResourceCore
    rw [h]
    dsimp only
    rw [ha]
    dsimp only
    rw [hs]
  · intro cfg st1 r st2 st3 e h ha hs hrl
    unfold Manager.createResourceCore
    rw [h]
    dsimp only
    rw [ha]
    dsimp only
    rw [hs]
    dsimp only
    rw [hrl]
  · intro path as_ e h
    unfold Manager.AddActions
    rw [h]
  · intro path as_ r h
    unfold Manager.AddActions
    rw [h]
  · intro pp subs e h
    unfold Manager.CreateResources
    rw [h]
  · intro pid sub rest existing e hx ha
    unfold Manager.createResourcesLoop
    rw [hx]
    dsimp only
    rw [ha]
  · intro pid sub rest e e2 hx hc
    unfold Manager.createResourcesLoop
    rw [hx]
    dsimp only
    rw [hc]
  · intro key cfg e h
    unfold Manager.CreateRole
    rw [h]
  · intro rk ps e h
    unfold Manager.AssignPermissions
    rw [h]
  · intro rk ps e h
    unfold Manager.RemovePermissions
    rw [h]
  · intro k e h
    unfold Manager.DeleteRole
    rw [h]
  · intro k role h
    unfold Manager.DeleteRole
    rw [h]
  · intro path e h
    unfold Manager.DeleteResource
    rw [h]
  · intro path r h
    unfold Manager.DeleteResource
    rw [h]
  · intro rk req e h
    unfold Manager.CheckRolePermission
    rw [h]
  · intro k pid e h
    unfold Manager.walkPath
    exact h
  · intro k k2 rest pid e h
    unfold Manager.walkPath
    rw [h]

/-- Witness for the propagation theorem: at the flaky storage the
pre-check fails with an opaque error and CreateResource continues into
the creation sequence, while a resolution failure in AddActions is
propagated verbatim. -/
theorem storage_error_propagation_witness :
    Manager.CreateResource flakyStorage () articleCfg =
      Manager.createResourceCore flakyStorage () articleCfg ∧
    Manager.AddActions flakyStorage () (str "article") [] = .error (.other 7) := by
  constructor
  · exact (storage_error_propagation Unit flakyStorage ()).1 articleCfg (.other 7) rfl
  · exact (storage_error_propagation Unit flakyStorage ()).2.2.2.2.2.1
      (str "article") [] (.other 7) rfl

end Privy
